import Mathlib

/-!
Verification of the storyboard / playback-controller core of the `vid`
repository (the `Player` component).  The definitions below are a shallow
embedding of the TypeScript source: machine floats that only ever hold exact
decimal fractions (VTT timestamps, track fractions) are modelled as `ℚ`,
JS strings as `List Char`, and the insertion-ordered JS `Map` as an
association list.
-/

set_option linter.unusedVariables false

namespace Vid

/-- Whitespace characters recognised by JS `String.prototype.trim` and the
regex class `\s` (restricted to the characters that can occur in a text
manifest). -/
def isWSChar (c : Char) : Bool :=
  c = ' ' || c = '\t' || c = '\n' || c = '\r'

/-- A line consisting only of whitespace (the separator matched by the block
splitter regex `\n\s*\n`, viewed line-wise). -/
def isBlankLine (l : List Char) : Bool := l.all isWSChar

/-- JS `String.prototype.trim`. -/
def trimChars (l : List Char) : List Char :=
  ((l.dropWhile isWSChar).reverse.dropWhile isWSChar).reverse

/-- JS `String.prototype.includes`. -/
def containsSub (hay needle : List Char) : Bool :=
  hay.tails.any (fun t => needle.isPrefixOf t)

/-- JS `text.split("\n")` on the character list. -/
def splitLines : List Char → List (List Char)
  | [] => [[]]
  | c :: cs =>
    match splitLines cs with
    | [] => [[]]
    | l :: ls => if c = '\n' then [] :: l :: ls else (c :: l) :: ls

/-- The splitter `vttText.split(/\n\s*\n/)` viewed on the line list: blocks are the maximal
runs of lines separated by whitespace-only lines (the regex separator consumes
every whitespace-only line between two newlines). -/
def splitBlanks : List (List Char) → List (List (List Char))
  | [] => [[]]
  | l :: ls =>
    match splitBlanks ls with
    | [] => [[]]
    | b :: bs => if isBlankLine l then [] :: b :: bs else (l :: b) :: bs

/-- Numeric value of a decimal digit character. -/
def dval (c : Char) : ℕ := c.toNat - '0'.toNat

/-- Regex `(\d{2})`: exactly two digits, returning `parseInt` of the capture. -/
def twoDigits : List Char → Option (ℕ × List Char)
  | a :: b :: r =>
    if a.isDigit && b.isDigit then some (dval a * 10 + dval b, r) else none
  | _ => none

/-- Regex `(\d{3})`: exactly three digits, returning `parseInt` of the capture. -/
def threeDigits : List Char → Option (ℕ × List Char)
  | a :: b :: c :: r =>
    if a.isDigit && b.isDigit && c.isDigit then
      some (dval a * 100 + dval b * 10 + dval c, r)
    else none
  | _ => none

/-- Match one literal character. -/
def chomp (c : Char) : List Char → Option (List Char)
  | x :: r => if x = c then some r else none
  | [] => none

/-- Match a literal string. -/
def expectStr (s l : List Char) : Option (List Char) :=
  if s.isPrefixOf l then some (l.drop s.length) else none

/-- One `(\d{2}):(\d{2}):(\d{2})\.(\d{3})` timestamp; returns the four
`parseInt`ed captures `(hh, mm, ss, mmm)`. -/
def timestampAt (l : List Char) : Option ((ℕ × ℕ × ℕ × ℕ) × List Char) := do
  let (h, r) ← twoDigits l
  let r ← chomp ':' r
  let (m, r) ← twoDigits r
  let r ← chomp ':' r
  let (s, r) ← twoDigits r
  let r ← chomp '.' r
  let (ms, r) ← threeDigits r
  pure ((h, m, s, ms), r)

/-- Regex `\s*`: greedy whitespace skip (the following literal `-->` is not
whitespace, so no backtracking can occur). -/
def skipWS (l : List Char) : List Char := l.dropWhile isWSChar

/-- Attempt the full time-range pattern
`(\d{2}):(\d{2}):(\d{2})\.(\d{3})\s*-->\s*(\d{2}):(\d{2}):(\d{2})\.(\d{3})`
anchored at the head of `l`. -/
def matchTimeRangeAt (l : List Char) :
    Option ((ℕ × ℕ × ℕ × ℕ) × (ℕ × ℕ × ℕ × ℕ)) := do
  let (st, r) ← timestampAt l
  let r ← expectStr "-->".data (skipWS r)
  let (en, _) ← timestampAt (skipWS r)
  pure (st, en)

/-- Regex search semantics of `timeLine.match(...)`: try each start position
left to right and take the first success. -/
def searchTimeRange : List Char → Option ((ℕ × ℕ × ℕ × ℕ) × (ℕ × ℕ × ℕ × ℕ))
  | [] => none
  | c :: rest =>
    match matchTimeRangeAt (c :: rest) with
    | some r => some r
    | none => searchTimeRange rest

/-- Value of `parseInt` on a nonempty digit string. -/
def digitsVal (l : List Char) : ℕ := l.foldl (fun acc c => acc * 10 + dval c) 0

/-- Regex `(\d+)`: a maximal nonempty digit run (greedy; the following literal
`,` is not a digit, so the maximal run is forced). -/
def digits1 (l : List Char) : Option (ℕ × List Char) :=
  let ds := l.takeWhile Char.isDigit
  if ds.isEmpty then none
  else some (digitsVal ds, l.dropWhile Char.isDigit)

/-- The tail `(\d+),(\d+),(\d+),(\d+)` of the fragment regex; trailing
characters after the last digit run are permitted (the pattern is unanchored
at the end). -/
def parseXYWHAt (l : List Char) : Option (ℕ × ℕ × ℕ × ℕ) := do
  let (x, r) ← digits1 l
  let r ← chomp ',' r
  let (y, r) ← digits1 r
  let r ← chomp ',' r
  let (w, r) ← digits1 r
  let r ← chomp ',' r
  let (h, _) ← digits1 r
  pure (x, y, w, h)

/-- Greedy `(.+)#xywh=(\d+),(\d+),(\d+),(\d+)`: because `(.+)` is greedy and a
match starting at index 0 subsumes all later starts, the capture `pre` is
everything before the LAST occurrence of `#xywh=` (at position ≥ 1) whose
suffix parses as the four numbers.  Recursion prefers the deeper (later)
occurrence, mirroring greediness. -/
def matchXYWHAux (pre rest : List Char) : Option (List Char × (ℕ × ℕ × ℕ × ℕ)) :=
  match rest with
  | [] => none
  | c :: rs =>
    match matchXYWHAux (pre ++ [c]) rs with
    | some res => some res
    | none =>
      if pre.isEmpty then none
      else
        match expectStr "#xywh=".data (c :: rs) with
        | some r => (parseXYWHAt r).map (fun nums => (pre, nums))
        | none => none

/-- The fragment match `urlLine.match(/(.+)#xywh=(\d+),(\d+),(\d+),(\d+)/)`. -/
def matchXYWH (l : List Char) : Option (List Char × (ℕ × ℕ × ℕ × ℕ)) :=
  matchXYWHAux [] l

/-- The timestamp value `hh * 3600 + mm * 60 + ss + mmm / 1000` (seconds, src
lines 68-77), computed exactly over a common denominator of 1000 so that the
value is a kernel-computable rational; `vttTime_eq` below proves it equal to
the source's formula. -/
def vttTime (h m s ms : ℕ) : ℚ :=
  mkRat (h * 3600000 + m * 60000 + s * 1000 + ms) 1000

/-- One storyboard tile (`StoryboardTile` in the source).  Times are seconds as
exact rationals. -/
structure StoryboardTile where
  startTime : ℚ
  endTime : ℚ
  x : ℕ
  y : ℕ
  w : ℕ
  h : ℕ
  url : List Char
deriving DecidableEq, Repr

/-- Body of the per-block loop of `parseStoryboardVTT` (src lines 49-93):
`timeLine` / `urlLine` are the trimmed LAST lines containing `-->` resp.
`#xywh=` (the `else if` makes the two assignments exclusive per line); a block
missing either line, or whose regexes fail, yields `none` (the `continue`s). -/
def parseCueBlock (baseUrl : List Char) (lines : List (List Char)) :
    Option StoryboardTile :=
  let tl := lines.foldl
    (fun (p : List Char × List Char) line =>
      if containsSub line "-->".data then (trimChars line, p.2)
      else if containsSub line "#xywh=".data then (p.1, trimChars line)
      else p) ([], [])
  let timeLine := tl.1
  let urlLine := tl.2
  if timeLine.isEmpty || urlLine.isEmpty then none
  else
    match searchTimeRange timeLine, matchXYWH urlLine with
    | some (st, en), some (pre, x, y, w, h) =>
      let startTime : ℚ := vttTime st.1 st.2.1 st.2.2.1 st.2.2.2
      let endTime : ℚ := vttTime en.1 en.2.1 en.2.2.1 en.2.2.2
      let fullUrl := if "http".data.isPrefixOf pre then pre else baseUrl ++ pre
      some { startTime := startTime, endTime := endTime,
             x := x, y := y, w := w, h := h, url := fullUrl }
    | _, _ => none

/-- The block list of a manifest: split at whitespace-only lines, then
`.filter((b) => b.trim())` (blocks produced by `splitBlanks` contain no
whitespace-only lines, so the filter is exactly nonemptiness). -/
def vttBlocks (text : List Char) : List (List (List Char)) :=
  (splitBlanks (splitLines text)).filter (fun b => !b.isEmpty)

/-- The accumulating `for`-loop of `parseStoryboardVTT`: well-formed blocks
`push` a tile, malformed blocks `continue`. -/
def parseVTTLoop (baseUrl : List Char) :
    List (List (List Char)) → List StoryboardTile → List StoryboardTile
  | [], acc => acc
  | b :: bs, acc =>
    match parseCueBlock baseUrl b with
    | some t => parseVTTLoop baseUrl bs (acc ++ [t])
    | none => parseVTTLoop baseUrl bs acc

/-- Line-list version of the parser (the manifest split into lines). -/
def parseVTTLines (baseUrl : List Char) (lineList : List (List Char)) :
    List StoryboardTile :=
  parseVTTLoop baseUrl ((splitBlanks lineList).filter (fun b => !b.isEmpty)) []

/-- The parser `parseStoryboardVTT(vttText, baseUrl)` (src lines 45-96). -/
def parseStoryboardVTT (vttText baseUrl : String) : List StoryboardTile :=
  parseVTTLines baseUrl.data (splitLines vttText.data)

/-- Natural dimensions of a loaded sprite sheet (`{nw, nh}` in the source). -/
structure SpriteDim where
  nw : ℕ
  nh : ℕ
deriving DecidableEq, Repr

/-- Structure `StoryboardMeta` in the source; the insertion-ordered JS `Map` is an
association list keyed by sprite URL. -/
structure StoryboardMeta where
  tiles : List StoryboardTile
  images : List (List Char × SpriteDim)
deriving DecidableEq, Repr

/-- Map lookup `storyboard.images.get(url)`. -/
def lookupImage (images : List (List Char × SpriteDim)) (url : List Char) :
    Option SpriteDim :=
  (images.find? (fun p => p.1 == url)).map Prod.snd

/-- The `while (lo <= hi)` loop of `findTile` (src lines 198-205), followed by
the fallback `tiles[Math.min(lo, tiles.length - 1)]` (line 205).  Indices are
`ℤ` because `hi` can become `-1`; `(lo + hi) >>> 1` equals `(lo + hi) / 2` for
the in-range nonnegative indices that occur.  An out-of-bounds element access
(which in JS would produce `undefined` and crash on `.startTime`) is modelled
as `none`. -/
def findTileLoop (tiles : List StoryboardTile) (time : ℚ) (lo hi : ℤ) :
    Option StoryboardTile :=
  if lo ≤ hi then
    let mid := (lo + hi) / 2
    match tiles.get? mid.toNat with
    | none => none
    | some t =>
      if time < t.startTime then findTileLoop tiles time lo (mid - 1)
      else if t.endTime ≤ time then findTileLoop tiles time (mid + 1) hi
      else some t
  else
    tiles.get? (min lo ((tiles.length : ℤ) - 1)).toNat
termination_by (hi + 1 - lo).toNat
decreasing_by
  all_goals omega

/-- The lookup `findTile(time)` (src lines 191-208). -/
def findTile (storyboard : Option StoryboardMeta) (time : ℚ) :
    Option StoryboardTile :=
  match storyboard with
  | none => none
  | some sb =>
    if sb.tiles.length = 0 then none
    else findTileLoop sb.tiles time 0 ((sb.tiles.length : ℤ) - 1)

/-- JS `Math.round`: round half toward `+∞`. -/
def jsRound (q : ℚ) : ℤ := ⌊q + 1 / 2⌋

/-- The crop specification produced by `thumbStyle` (src lines 217-243),
stripped of CSS syntax: `offsetX/offsetY` are the magnitudes of the (negated)
`backgroundPosition` components, `bgWidth/bgHeight` the `backgroundSize`. -/
structure PreviewRect where
  width : ℚ
  height : ℚ
  offsetX : ℚ
  offsetY : ℚ
  bgWidth : ℚ
  bgHeight : ℚ
deriving DecidableEq, Repr

/-- The mapper `thumbStyle` (src lines 217-243): `none` when there is no hover tile, no
storyboard, or the tile's sheet has no recorded dimensions (failed preload). -/
def thumbStyle (storyboard : Option StoryboardMeta)
    (hoverTile : Option StoryboardTile) : Option PreviewRect :=
  match hoverTile, storyboard with
  | some tile, some sb =>
    match lookupImage sb.images tile.url with
    | none => none
    | some meta =>
      let tileW : ℚ := tile.w
      let tileH : ℚ := tile.h
      let tileAspect := tileW / tileH
      let previewW : ℚ :=
        if 1 ≤ tileAspect then 192 else (jsRound (128 * tileAspect) : ℚ)
      let previewH : ℚ :=
        if 1 ≤ tileAspect then (jsRound (192 / tileAspect) : ℚ) else 128
      let scaleX := previewW / tileW
      let scaleY := previewH / tileH
      some { width := previewW, height := previewH,
             offsetX := (tile.x : ℚ) * scaleX, offsetY := (tile.y : ℚ) * scaleY,
             bgWidth := (meta.nw : ℚ) * scaleX, bgHeight := (meta.nh : ℚ) * scaleY }
  | _, _ => none

/-- The error classes of the streaming engine (`Hls.ErrorTypes`). -/
inductive HlsErrorType
  | networkError
  | mediaError
  | keySystemError
  | muxError
  | otherError
deriving DecidableEq, Repr

/-- What the `Hls.Events.ERROR` handler can do to the session. -/
inductive SessionAction
  | startLoad
  | recoverMediaError
  | enterFailed
  | noAction
deriving DecidableEq, Repr

/-- The `hls.on(Hls.Events.ERROR, ...)` handler (src lines 294-299): fatal
network errors reload (`hls.startLoad()`), fatal media errors call
`hls.recoverMediaError()`, everything else — including every other fatal
class — does nothing. -/
def onErrorHandler (fatal : Bool) (etype : HlsErrorType) : SessionAction :=
  if fatal then
    if etype = HlsErrorType.networkError then SessionAction.startLoad
    else if etype = HlsErrorType.mediaError then SessionAction.recoverMediaError
    else SessionAction.noAction
  else SessionAction.noAction

/-- The subset of the component's state touched by the handlers under
verification. -/
structure UIState where
  isPlaying : Bool
  hasStarted : Bool
  isMuted : Bool
  isLoading : Bool
  isVideoReady : Bool
deriving DecidableEq, Repr

/-- The media element fields the handlers read or write. -/
structure VideoEl where
  muted : Bool
  paused : Bool
  currentTime : ℚ
deriving DecidableEq, Repr

/-- The error handler performs no state updates whatsoever (src lines 294-299
contain no `set...` call): the component state is returned unchanged for every
error. -/
def onErrorHandlerState (ui : UIState) (fatal : Bool) (etype : HlsErrorType) :
    UIState := ui

/-- The spec's claimed classification of `onSessionError(kind, fatal)`
(spec §4.3): other fatal classes transition the controller to `Failed`.
Stated from the spec's words for comparison with `onErrorHandler`. -/
def onSessionErrorSpec (fatal : Bool) (etype : HlsErrorType) : SessionAction :=
  if fatal then
    if etype = HlsErrorType.networkError then SessionAction.startLoad
    else if etype = HlsErrorType.mediaError then SessionAction.recoverMediaError
    else SessionAction.enterFailed
  else SessionAction.noAction

/-- Result of the `MANIFEST_PARSED` handler: new component state, new media
element state, and the media element state captured at the moment `play()` was
issued (if it was). -/
structure ManifestParsedResult where
  ui : UIState
  video : VideoEl
  playAttempt : Option VideoEl
deriving DecidableEq, Repr

/-- The `hls.on(Hls.Events.MANIFEST_PARSED, ...)` handler (src lines 271-285),
restricted to the state under verification: `setIsLoading(false)`,
`setIsVideoReady(true)`, and — when autoplay is requested — `video.muted =
true; setIsMuted(true); video.play().catch(() => {})`.  `playRejected` models
whether the returned play promise rejects; the `catch(() => {})` swallows the
rejection, so the result cannot depend on it. -/
def manifestParsedHandler (autoplay : Bool) (ui : UIState) (v : VideoEl)
    (playRejected : Bool) : ManifestParsedResult :=
  let ui1 := { ui with isLoading := false, isVideoReady := true }
  if autoplay then
    let v1 := { v with muted := true }
    let ui2 := { ui1 with isMuted := true }
    { ui := ui2, video := v1, playAttempt := some v1 }
  else
    { ui := ui1, video := v, playAttempt := none }

/-- The `ended` event handler (src line 328): `setIsPlaying(false); if (loop)
{ v.currentTime = 0; v.play(); }`.  The third component records whether
`play()` was issued inside the handler. -/
def endedHandler (loop : Bool) (ui : UIState) (v : VideoEl) :
    UIState × VideoEl × Bool :=
  let ui1 := { ui with isPlaying := false }
  if loop then (ui1, { v with currentTime := 0 }, true)
  else (ui1, v, false)

/-- The `play` event handler (src line 326): `setIsPlaying(true);
setHasStarted(true)`. -/
def playEventHandler (ui : UIState) : UIState :=
  { ui with isPlaying := true, hasStarted := true }

/-- ArrowLeft keyboard seek (src line 369): `Math.max(0, v.currentTime - 10)`. -/
def keySeekBack (t : ℚ) : ℚ := max 0 (t - 10)

/-- ArrowRight keyboard seek (src line 372): `Math.min(v.duration || 0,
v.currentTime + 10)`; `duration` is `none` while still NaN. -/
def keySeekFwd (t : ℚ) (duration : Option ℚ) : ℚ :=
  min (duration.getD 0) (t + 10)

/-- Track click/drag seek `seekTo` (src lines 442-448): the track fraction is
clamped to `[0,1]` before multiplying by the (defaulted) duration. -/
def seekToTime (clientX left width : ℚ) (duration : Option ℚ) : ℚ :=
  let pos := max 0 (min 1 ((clientX - left) / width))
  pos * duration.getD 0

/-- A sprite image settles by loading (with natural dimensions) or erroring. -/
inductive ImgEvent
  | onload (dim : SpriteDim)
  | onerror
deriving DecidableEq, Repr

/-- State of the storyboard preload effect (src lines 159-181): the mutable
`imageMap`, the `loaded` counter and the published storyboard (the
`setStoryboard` call), `none` until publication. -/
structure PreloadState where
  imageMap : List (List Char × SpriteDim)
  loaded : ℕ
  published : Option StoryboardMeta
deriving DecidableEq, Repr

/-- Distinct sheet URLs `[...new Set(tiles.map(t => t.url))]` in first-occurrence
order. -/
def uniqueUrls : List StoryboardTile → List (List Char)
  | [] => []
  | t :: ts => t.url :: (uniqueUrls (ts.filter (fun s => s.url ≠ t.url)))
termination_by l => l.length
decreasing_by
  exact Nat.lt_succ_of_le (List.length_filter_le _ _)

/-- One `img.onload` / `img.onerror` callback (src lines 167-179): `onload`
records the dimensions then increments `loaded`; `onerror` only increments;
either publishes the storyboard exactly when `loaded` reaches the number of
distinct sheets. -/
def stepPreload (tiles : List StoryboardTile) (total : ℕ) (st : PreloadState)
    (ev : List Char × ImgEvent) : PreloadState :=
  match ev.2 with
  | ImgEvent.onload dim =>
    let m := st.imageMap ++ [(ev.1, dim)]
    let ld := st.loaded + 1
    { imageMap := m, loaded := ld,
      published := if ld = total then some { tiles := tiles, images := m }
                   else st.published }
  | ImgEvent.onerror =>
    let ld := st.loaded + 1
    { imageMap := st.imageMap, loaded := ld,
      published := if ld = total then
                     some { tiles := tiles, images := st.imageMap }
                   else st.published }

/-- Run the preload effect over the sequence of image-settlement events. -/
def runPreload (tiles : List StoryboardTile)
    (events : List (List Char × ImgEvent)) : PreloadState :=
  events.foldl (stepPreload tiles (uniqueUrls tiles).length)
    { imageMap := [], loaded := 0, published := none }

/-- The sprite-dimension entries contributed by the `onload` events, in event
order (the `imageMap.set` calls). -/
def loadedMap (events : List (List Char × ImgEvent)) :
    List (List Char × SpriteDim) :=
  events.filterMap (fun e =>
    match e.2 with
    | ImgEvent.onload d => some (e.1, d)
    | ImgEvent.onerror => none)

/-- Join a list of lines with `'\n'` (inverse of `splitLines` on
newline-free lines); used to state which manifests consist of given cue
blocks. -/
def joinLines : List (List Char) → List Char
  | [] => []
  | [l] => l
  | l :: ls => l ++ '\n' :: joinLines ls

/-- Join a list of cue blocks into one line list, a single blank line between
consecutive blocks (the shape produced by a `\n\n`-separated manifest); used
to state which manifests consist of given cue blocks. -/
def joinBlocks : List (List (List Char)) → List (List Char)
  | [] => []
  | [b] => b
  | b :: bs => b ++ [] :: joinBlocks bs

/-! Concrete fixtures used by witnesses and counterexamples. -/

/-- The spec's two-cue scenario manifest (§8). -/
def exManifest : String :=
  "00:00:00.000 --> 00:00:05.000\nsheet.jpg#xywh=0,0,100,60\n\n00:00:05.000 --> 00:00:10.000\nsheet.jpg#xywh=100,0,100,60"

/-- The same two cues in reversed order. -/
def revManifest : String :=
  "00:00:05.000 --> 00:00:10.000\nsheet.jpg#xywh=100,0,100,60\n\n00:00:00.000 --> 00:00:05.000\nsheet.jpg#xywh=0,0,100,60"

/-- First tile of the two-cue scenario. -/
def exTileA : StoryboardTile :=
  { startTime := 0, endTime := 5, x := 0, y := 0, w := 100, h := 60,
    url := "b/sheet.jpg".data }

/-- Second tile of the two-cue scenario. -/
def exTileB : StoryboardTile :=
  { startTime := 5, endTime := 10, x := 100, y := 0, w := 100, h := 60,
    url := "b/sheet.jpg".data }

/-- Storyboard of the two-cue scenario with its sheet loaded at 200×60. -/
def exStoryboard : StoryboardMeta :=
  { tiles := [exTileA, exTileB],
    images := [("b/sheet.jpg".data, { nw := 200, nh := 60 })] }

/-- A 100×60 tile whose preview rounding is inexact (192 / (100/60) = 115.2). -/
def exTileWide : StoryboardTile :=
  { startTime := 0, endTime := 5, x := 0, y := 0, w := 100, h := 60,
    url := "u".data }

/-- Storyboard holding `exTileWide` with its 500×60 sheet. -/
def exSbWide : StoryboardMeta :=
  { tiles := [exTileWide], images := [("u".data, { nw := 500, nh := 60 })] }

/-- A 160×90 tile whose preview rounding is exact (192 / (16/9) = 108). -/
def exTileExact : StoryboardTile :=
  { startTime := 0, endTime := 5, x := 160, y := 0, w := 160, h := 90,
    url := "u".data }

/-- Storyboard holding `exTileExact` with its 800×90 sheet. -/
def exSbExact : StoryboardMeta :=
  { tiles := [exTileExact], images := [("u".data, { nw := 800, nh := 90 })] }

/-- A three-cue manifest whose middle block is malformed (no `-->` line). -/
def malManifest : String :=
  "00:00:00.000 --> 00:00:05.000\nsheet.jpg#xywh=0,0,100,60\n\nbadcue\n\n00:00:05.000 --> 00:00:10.000\nsheet.jpg#xywh=100,0,100,60"

/-- A three-cue manifest whose FIRST block is malformed (no `-->` line). -/
def malManifestFirst : String :=
  "badcue\n\n00:00:00.000 --> 00:00:05.000\nsheet.jpg#xywh=0,0,100,60\n\n00:00:05.000 --> 00:00:10.000\nsheet.jpg#xywh=100,0,100,60"

/-- First tile of an UNSORTED storyboard: startTime 10. -/
def exTileU1 : StoryboardTile :=
  { startTime := 10, endTime := 11, x := 0, y := 0, w := 100, h := 60,
    url := "u".data }

/-- Second tile of the unsorted storyboard: startTime 0. -/
def exTileU2 : StoryboardTile :=
  { startTime := 0, endTime := 1, x := 100, y := 0, w := 100, h := 60,
    url := "u".data }

/-- Third tile of the unsorted storyboard: startTime 3. -/
def exTileU3 : StoryboardTile :=
  { startTime := 3, endTime := 4, x := 200, y := 0, w := 100, h := 60,
    url := "u".data }

/-- A storyboard whose tile list is NOT sorted by startTime (startTimes
10, 0, 3) — reachable, since the parser preserves manifest order. -/
def exSbUnsorted : StoryboardMeta :=
  { tiles := [exTileU1, exTileU2, exTileU3], images := [] }

/-- The component's initial state (the `useState` initialisers, src lines
113-135). -/
def initialUIState : UIState :=
  { isPlaying := false, hasStarted := false, isMuted := false,
    isLoading := true, isVideoReady := false }

/-- A fresh media element: unmuted, paused at time 0. -/
def initialVideoEl : VideoEl :=
  { muted := false, paused := true, currentTime := 0 }

/-! ## Supporting lemmas -/

/-- Faithfulness: `vttTime` is exactly the source's timestamp formula
`parseInt(h) * 3600 + parseInt(m) * 60 + parseInt(s) + parseInt(ms) / 1000`. -/
theorem vttTime_eq (h m s ms : ℕ) :
    vttTime h m s ms =
      (h : ℚ) * 3600 + (m : ℚ) * 60 + (s : ℚ) + (ms : ℚ) / 1000 := by
  unfold vttTime
  rw [Rat.mkRat_eq_div]
  push_cast
  ring

/-- The accumulating parse loop is `filterMap` of the per-block parse. -/
theorem parseVTTLoop_eq (baseUrl : List Char) (bs : List (List (List Char)))
    (acc : List StoryboardTile) :
    parseVTTLoop baseUrl bs acc = acc ++ bs.filterMap (parseCueBlock baseUrl) := by
  induction bs generalizing acc with
  | nil => simp [parseVTTLoop]
  | cons b rest ih =>
    simp only [parseVTTLoop, List.filterMap_cons]
    cases h : parseCueBlock baseUrl b with
    | none => simp [ih]
    | some t => simp [ih]

/-- The parser over a whole manifest is `filterMap` over its block list. -/
theorem parseStoryboardVTT_eq (text baseUrl : String) :
    parseStoryboardVTT text baseUrl =
      (vttBlocks text.data).filterMap (parseCueBlock baseUrl.data) := by
  simp [parseStoryboardVTT, parseVTTLines, vttBlocks, parseVTTLoop_eq]

theorem splitLines_ne_nil (l : List Char) : splitLines l ≠ [] := by
  induction l with
  | nil => simp [splitLines]
  | cons c cs ih =>
    simp only [splitLines]
    cases h : splitLines cs with
    | nil => exact absurd h ih
    | cons x xs =>
      by_cases hc : c = '\n' <;> simp [hc]

theorem splitLines_no_newline (l : List Char) (h : '\n' ∉ l) :
    splitLines l = [l] := by
  induction l with
  | nil => simp [splitLines]
  | cons c cs ih =>
    have hc : c ≠ '\n' := fun hc => h (hc ▸ List.mem_cons_self c cs)
    have hcs : '\n' ∉ cs := fun hm => h (List.mem_cons_of_mem c hm)
    simp only [splitLines, ih hcs]
    simp [hc]

theorem splitLines_append (l rest : List Char) (h : '\n' ∉ l) :
    splitLines (l ++ '\n' :: rest) = l :: splitLines rest := by
  induction l with
  | nil =>
    simp only [List.nil_append, splitLines]
    cases hr : splitLines rest with
    | nil => exact absurd hr (splitLines_ne_nil rest)
    | cons x xs => simp
  | cons c cs ih =>
    have hc : c ≠ '\n' := fun hc => h (hc ▸ List.mem_cons_self c cs)
    have hcs : '\n' ∉ cs := fun hm => h (List.mem_cons_of_mem c hm)
    rw [List.cons_append]
    simp only [splitLines]
    rw [ih hcs]
    simp [hc]

/-- Inversion: `splitLines` undoes `joinLines` when no line contains a newline. -/
theorem splitLines_joinLines (L : List (List Char)) (hne : L ≠ [])
    (hnl : ∀ l ∈ L, '\n' ∉ l) :
    splitLines (joinLines L) = L := by
  induction L with
  | nil => exact absurd rfl hne
  | cons l ls ih =>
    cases ls with
    | nil =>
      simp only [joinLines]
      exact splitLines_no_newline l (hnl l (List.mem_cons_self l []))
    | cons l2 ls2 =>
      have : joinLines (l :: l2 :: ls2) = l ++ '\n' :: joinLines (l2 :: ls2) := rfl
      rw [this, splitLines_append l _ (hnl l (List.mem_cons_self l _))]
      rw [ih (by simp) (fun x hx => hnl x (List.mem_cons_of_mem l hx))]

theorem splitBlanks_ne_nil (B : List (List Char)) : splitBlanks B ≠ [] := by
  induction B with
  | nil => simp [splitBlanks]
  | cons l ls ih =>
    simp only [splitBlanks]
    cases h : splitBlanks ls with
    | nil => exact absurd h ih
    | cons b bs =>
      by_cases hb : isBlankLine l <;> simp [hb]

theorem splitBlanks_nonblank (B : List (List Char))
    (h : ∀ l ∈ B, isBlankLine l = false) : splitBlanks B = [B] := by
  induction B with
  | nil => simp [splitBlanks]
  | cons l ls ih =>
    have hl := h l (List.mem_cons_self l ls)
    simp only [splitBlanks, ih (fun x hx => h x (List.mem_cons_of_mem l hx))]
    simp [hl]

theorem splitBlanks_append (B : List (List Char)) (sep : List Char)
    (rest : List (List Char)) (h : ∀ l ∈ B, isBlankLine l = false)
    (hsep : isBlankLine sep = true) :
    splitBlanks (B ++ sep :: rest) = B :: splitBlanks rest := by
  induction B with
  | nil =>
    simp only [List.nil_append, splitBlanks]
    cases hr : splitBlanks rest with
    | nil => exact absurd hr (splitBlanks_ne_nil rest)
    | cons b bs => simp [hsep]
  | cons l ls ih =>
    have hl := h l (List.mem_cons_self l ls)
    rw [List.cons_append]
    simp only [splitBlanks]
    rw [ih (fun x hx => h x (List.mem_cons_of_mem l hx))]
    simp [hl]

theorem findTileLoop_mem (tiles : List StoryboardTile) (time : ℚ)
    (lo hi : ℤ) :
    0 ≤ lo → hi ≤ (tiles.length : ℤ) - 1 → tiles ≠ [] →
      ∃ tl, findTileLoop tiles time lo hi = some tl ∧ tl ∈ tiles := by
  induction lo, hi using findTileLoop.induct tiles time with
  | case1 lo hi hle mid hnone =>
    intro hlo hhi hne
    exfalso
    rw [List.get?_eq_none] at hnone
    omega
  | case2 lo hi hle mid t hget hlt ih =>
    intro hlo hhi hne
    rw [findTileLoop.eq_def]
    simp only [hle, if_true]
    rw [hget]
    simp only [hlt, if_true]
    exact ih hlo (by omega) hne
  | case3 lo hi hle mid t hget hlt hge ih =>
    intro hlo hhi hne
    rw [findTileLoop.eq_def]
    simp only [hle, if_true]
    rw [hget]
    simp only [hlt, if_false, hge, if_true]
    exact ih (by omega) hhi hne
  | case4 lo hi hle mid t hget hlt hge =>
    intro hlo hhi hne
    refine ⟨t, ?_, List.get?_mem hget⟩
    rw [findTileLoop.eq_def]
    simp only [hle, if_true]
    rw [hget]
    simp [hlt, hge]
  | case5 lo hi hgt =>
    intro hlo hhi hne
    rw [findTileLoop.eq_def]
    simp only [hgt, if_false]
    have hlen : 0 < tiles.length := List.length_pos.mpr hne
    have hbound : (min lo ((tiles.length : ℤ) - 1)).toNat < tiles.length := by omega
    cases hg : tiles.get? (min lo ((tiles.length : ℤ) - 1)).toNat with
    | none => rw [List.get?_eq_none] at hg; omega
    | some t => exact ⟨t, rfl, List.get?_mem hg⟩



theorem findTileLoop_finds (tiles : List StoryboardTile) (time : ℚ)
    (hsort : tiles.Pairwise (fun a b => a.endTime ≤ b.startTime))
    (hval : ∀ tl ∈ tiles, tl.startTime < tl.endTime)
    (i : ℕ) (tile : StoryboardTile) (hget : tiles.get? i = some tile)
    (h1 : tile.startTime ≤ time) (h2 : time < tile.endTime)
    (lo hi : ℤ) :
    lo ≤ (i : ℤ) → (i : ℤ) ≤ hi → hi ≤ (tiles.length : ℤ) - 1 →
    findTileLoop tiles time lo hi = some tile := by
  have hpg := List.pairwise_iff_get.mp hsort
  have hi_len : i < tiles.length := by
    rcases List.get?_eq_some.mp hget with ⟨hlt, -⟩
    exact hlt
  induction lo, hi using findTileLoop.induct tiles time with
  | case1 lo hi hle mid hnone =>
    intro hlo hhi hbd
    exfalso
    rw [List.get?_eq_none] at hnone
    omega
  | case2 lo hi hle mid t hget2 hlt ih =>
    intro hlo hhi hbd
    rw [findTileLoop.eq_def]
    simp only [hle, if_true]
    rw [hget2]
    simp only [hlt, if_true]
    rcases List.get?_eq_some.mp hget2 with ⟨hmlen, hmeq⟩
    have hmi : ¬ (mid.toNat < i) := by
      intro hcase
      have hR := hpg ⟨mid.toNat, hmlen⟩ ⟨i, hi_len⟩ hcase
      rw [hmeq] at hR
      rw [(List.get?_eq_some.mp hget).2] at hR
      have := hval t (List.get?_mem hget2)
      exact absurd hlt (by push_neg; linarith)
    have hti : ¬ (mid.toNat = i) := by
      intro hcase
      rw [hcase, hget] at hget2
      cases hget2
      exact absurd hlt (by push_neg; linarith)
    apply ih hlo ?_ (by omega)
    omega
  | case3 lo hi hle mid t hget2 hlt hge ih =>
    intro hlo hhi hbd
    rw [findTileLoop.eq_def]
    simp only [hle, if_true]
    rw [hget2]
    simp only [hlt, if_false, hge, if_true]
    rcases List.get?_eq_some.mp hget2 with ⟨hmlen, hmeq⟩
    have him : ¬ (i < mid.toNat) := by
      intro hcase
      have hR := hpg ⟨i, hi_len⟩ ⟨mid.toNat, hmlen⟩ hcase
      rw [hmeq] at hR
      rw [(List.get?_eq_some.mp hget).2] at hR
      push_neg at hlt
      linarith
    have hti : ¬ (i = mid.toNat) := by
      intro hcase
      rw [← hcase, hget] at hget2
      cases hget2
      linarith
    apply ih ?_ hhi hbd
    omega
  | case4 lo hi hle mid t hget2 hlt hge =>
    intro hlo hhi hbd
    rw [findTileLoop.eq_def]
    simp only [hle, if_true]
    rw [hget2]
    simp only [hlt, if_false, hge, if_true]
    rcases List.get?_eq_some.mp hget2 with ⟨hmlen, hmeq⟩
    push_neg at hlt hge
    have him : ¬ (i < mid.toNat) := by
      intro hcase
      have hR := hpg ⟨i, hi_len⟩ ⟨mid.toNat, hmlen⟩ hcase
      rw [hmeq] at hR
      rw [(List.get?_eq_some.mp hget).2] at hR
      linarith
    have hmi : ¬ (mid.toNat < i) := by
      intro hcase
      have hR := hpg ⟨mid.toNat, hmlen⟩ ⟨i, hi_len⟩ hcase
      rw [hmeq] at hR
      rw [(List.get?_eq_some.mp hget).2] at hR
      have := hval t (List.get?_mem hget2)
      linarith
    have : mid.toNat = i := by omega
    rw [this, hget] at hget2
    cases hget2
    rfl
  | case5 lo hi hgt =>
    intro hlo hhi hbd
    exfalso
    omega



theorem findTileLoop_right (tiles : List StoryboardTile) (time : ℚ)
    (hval : ∀ tl ∈ tiles, tl.startTime < tl.endTime)
    (hend : ∀ tl ∈ tiles, tl.endTime ≤ time) (lo hi : ℤ) :
    0 ≤ lo → hi = (tiles.length : ℤ) - 1 → tiles ≠ [] →
    findTileLoop tiles time lo hi = tiles.get? (tiles.length - 1) := by
  induction lo, hi using findTileLoop.induct tiles time with
  | case1 lo hi hle mid hnone =>
    intro hlo hhi hne
    exfalso
    rw [List.get?_eq_none] at hnone
    have hlen : 0 < tiles.length := List.length_pos.mpr hne
    omega
  | case2 lo hi hle mid t hget2 hlt ih =>
    intro hlo hhi hne
    exfalso
    have hmem := List.get?_mem hget2
    have := hval t hmem
    have := hend t hmem
    linarith
  | case3 lo hi hle mid t hget2 hlt hge ih =>
    intro hlo hhi hne
    rw [findTileLoop.eq_def]
    simp only [hle, if_true]
    rw [hget2]
    simp only [hlt, if_false, hge, if_true]
    exact ih (by omega) hhi hne
  | case4 lo hi hle mid t hget2 hlt hge =>
    intro hlo hhi hne
    exfalso
    exact hge (hend t (List.get?_mem hget2))
  | case5 lo hi hgt =>
    intro hlo hhi hne
    rw [findTileLoop.eq_def]
    simp only [hgt, if_false]
    have hlen : 0 < tiles.length := List.length_pos.mpr hne
    congr 1
    omega

theorem findTileLoop_left (tiles : List StoryboardTile) (time : ℚ)
    (hall : ∀ tl ∈ tiles, time < tl.startTime) (lo hi : ℤ) :
    lo = 0 → hi ≤ (tiles.length : ℤ) - 1 → tiles ≠ [] →
    findTileLoop tiles time lo hi = tiles.get? 0 := by
  induction lo, hi using findTileLoop.induct tiles time with
  | case1 lo hi hle mid hnone =>
    intro hlo hhi hne
    exfalso
    rw [List.get?_eq_none] at hnone
    omega
  | case2 lo hi hle mid t hget2 hlt ih =>
    intro hlo hhi hne
    rw [findTileLoop.eq_def]
    simp only [hle, if_true]
    rw [hget2]
    simp only [hlt, if_true]
    exact ih hlo (by omega) hne
  | case3 lo hi hle mid t hget2 hlt hge ih =>
    intro hlo hhi hne
    exact absurd (hall t (List.get?_mem hget2)) hlt
  | case4 lo hi hle mid t hget2 hlt hge =>
    intro hlo hhi hne
    exact absurd (hall t (List.get?_mem hget2)) hlt
  | case5 lo hi hgt =>
    intro hlo hhi hne
    rw [findTileLoop.eq_def]
    simp only [hgt, if_false]
    have hlen : 0 < tiles.length := List.length_pos.mpr hne
    congr 1
    omega

theorem scan_finds (tiles : List StoryboardTile) (time : ℚ)
    (hsort : tiles.Pairwise (fun a b => a.endTime ≤ b.startTime))
    (tile : StoryboardTile) (hmem : tile ∈ tiles)
    (h1 : tile.startTime ≤ time) (h2 : time < tile.endTime) :
    tiles.find? (fun tl => decide (tl.startTime ≤ time) &&
      decide (time < tl.endTime)) = some tile := by
  induction tiles with
  | nil => cases hmem
  | cons a rest ih =>
    by_cases ha : a = tile
    · subst ha
      simp [List.find?, h1, h2]
    · have hmem2 : tile ∈ rest := by
        rcases List.mem_cons.mp hmem with h | h
        · exact absurd h.symm ha
        · exact h
      have hR : a.endTime ≤ tile.startTime :=
        List.rel_of_pairwise_cons hsort hmem2
      have hna : ¬ (time < a.endTime) := by linarith
      simp only [List.find?]
      have hfalse : (decide (a.startTime ≤ time) && decide (time < a.endTime)) = false := by
        simp [hna]
      rw [hfalse]
      exact ih hsort.of_cons hmem2


/-- Claim C1.  For a valid manifest index (tiles sorted ascending with
non-overlapping `[startTime, endTime)` intervals, each nonempty) `findTile`
agrees with an exhaustive linear scan on every query time contained in some
tile's interval; and when the query lies at or beyond every tile's `endTime`
(the search overruns the end), the final bisection position is clamped to the
last tile.  (For a time contained in no interval the returned tile is, by
definition of `findTileLoop`, the one at the clamped final bisection
position.) -/
theorem findTile_agrees_with_linear_scan (sb : StoryboardMeta) (time : ℚ)
    (hsort : sb.tiles.Pairwise (fun a b => a.endTime ≤ b.startTime))
    (hval : ∀ tl ∈ sb.tiles, tl.startTime < tl.endTime) :
    (∀ tile ∈ sb.tiles, tile.startTime ≤ time → time < tile.endTime →
        findTile (some sb) time = some tile ∧
        sb.tiles.find? (fun tl => decide (tl.startTime ≤ time) &&
          decide (time < tl.endTime)) = some tile) ∧
    ((∀ tl ∈ sb.tiles, tl.endTime ≤ time) → sb.tiles ≠ [] →
        findTile (some sb) time = sb.tiles.getLast?) := by
  constructor
  · intro tile hmem h1 h2
    have hne : sb.tiles ≠ [] := List.ne_nil_of_mem hmem
    have hlen : 0 < sb.tiles.length := List.length_pos.mpr hne
    constructor
    · rcases List.mem_iff_get.mp hmem with ⟨⟨i, hilen⟩, heq⟩
      have hget : sb.tiles.get? i = some tile := by
        rw [List.get?_eq_get hilen, heq]
      rw [findTile]
      simp only [Nat.pos_iff_ne_zero.mp hlen, if_false]
      exact findTileLoop_finds sb.tiles time hsort hval i tile hget h1 h2 0
        ((sb.tiles.length : ℤ) - 1) (by omega) (by omega) (by omega)
    · exact scan_finds sb.tiles time hsort tile hmem h1 h2
  · intro hend hne
    have hlen : 0 < sb.tiles.length := List.length_pos.mpr hne
    rw [findTile]
    simp only [Nat.pos_iff_ne_zero.mp hlen, if_false]
    rw [List.getLast?_eq_getElem?, ← List.get?_eq_getElem?]
    exact findTileLoop_right sb.tiles time hval hend 0
      ((sb.tiles.length : ℤ) - 1) (by omega) rfl hne

/-- Witness for `findTile_agrees_with_linear_scan` on the spec's two-cue
scenario: lookups at 3 and at 10 (clamped past the end). -/
theorem findTile_agrees_with_linear_scan_witness :
    (exStoryboard.tiles.Pairwise (fun a b => a.endTime ≤ b.startTime) ∧
      ∀ tl ∈ exStoryboard.tiles, tl.startTime < tl.endTime) ∧
    findTile (some exStoryboard) 3 = some exTileA ∧
    findTile (some exStoryboard) 10 = exStoryboard.tiles.getLast? := by
  have hs : exStoryboard.tiles.Pairwise (fun a b => a.endTime ≤ b.startTime) := by
    decide
  have hv : ∀ tl ∈ exStoryboard.tiles, tl.startTime < tl.endTime := by decide
  refine ⟨⟨hs, hv⟩, ?_, ?_⟩
  · exact ((findTile_agrees_with_linear_scan exStoryboard 3 hs hv).1 exTileA
      (by decide) (by decide) (by decide)).1
  · exact (findTile_agrees_with_linear_scan exStoryboard 10 hs hv).2
      (by decide) (by decide)

/-- Claim C10, amended.  When the storyboard has at least one tile, `findTile`
always returns a member of the tile list (the loop terminates and all index
accesses are in bounds — an out-of-bounds access is modelled as `none`); a
time earlier than the first tile's `startTime` yields the first tile ON A
LIST SORTED ascending by `startTime` (on an unsorted list this fails, see the
counterexample); `null` is returned only for a missing storyboard or an empty
tile list. -/
theorem findTile_total (sb : StoryboardMeta) (time : ℚ) (hne : sb.tiles ≠ []) :
    (∃ tile, findTile (some sb) time = some tile ∧ tile ∈ sb.tiles) ∧
    (sb.tiles.Pairwise (fun a b => a.startTime ≤ b.startTime) →
      ∀ hd, sb.tiles.head? = some hd → time < hd.startTime →
        findTile (some sb) time = some hd) ∧
    findTile none time = none ∧
    (∀ imgs, findTile (some { tiles := [], images := imgs }) time = none) := by
  have hlen : 0 < sb.tiles.length := List.length_pos.mpr hne
  refine ⟨?_, ?_, rfl, fun imgs => rfl⟩
  · rw [findTile]
    simp only [Nat.pos_iff_ne_zero.mp hlen, if_false]
    exact findTileLoop_mem sb.tiles time 0 ((sb.tiles.length : ℤ) - 1)
      (by omega) (by omega) hne
  · intro hsort hd hhd hlt
    have hall : ∀ tl ∈ sb.tiles, time < tl.startTime := by
      intro tl hmem
      cases hts : sb.tiles with
      | nil => rw [hts] at hmem; cases hmem
      | cons a rest =>
        rw [hts] at hmem hhd hsort
        have ha : a = hd := by simpa using hhd
        subst ha
        rcases List.mem_cons.mp hmem with h | h
        · subst h; exact hlt
        · exact lt_of_lt_of_le hlt (List.rel_of_pairwise_cons hsort h)
    rw [findTile]
    simp only [Nat.pos_iff_ne_zero.mp hlen, if_false]
    have h0 : sb.tiles.get? 0 = some hd := by
      rw [List.get?_zero]
      exact hhd
    rw [findTileLoop_left sb.tiles time hall 0 ((sb.tiles.length : ℤ) - 1)
      rfl (by omega) hne]
    exact h0

/-- Witness for `findTile_total`: the two-cue storyboard at time -1 (before
the first tile) and at 7. -/
theorem findTile_total_witness :
    exStoryboard.tiles ≠ [] ∧
    (∃ tile, findTile (some exStoryboard) 7 = some tile ∧
      tile ∈ exStoryboard.tiles) ∧
    findTile (some exStoryboard) (-1) = some exTileA := by
  have hne : exStoryboard.tiles ≠ [] := by decide
  refine ⟨hne, (findTile_total exStoryboard 7 hne).1, ?_⟩
  exact (findTile_total exStoryboard (-1) hne).2.1 (by decide) exTileA
    (by decide) (by decide)


/-- Counterexample to claim C10's unconditional first-tile clause: on the
reachable UNSORTED storyboard with startTimes 10, 0, 3 (the parser preserves
manifest order and never sorts), the query time 7 is earlier than the first
tile's startTime 10, yet `findTile` returns the THIRD tile, not the first. -/
theorem findTile_unsorted_counterexample :
    exSbUnsorted.tiles.head? = some exTileU1 ∧
    (7 : ℚ) < exTileU1.startTime ∧
    findTile (some exSbUnsorted) 7 = some exTileU3 ∧
    some exTileU3 ≠ some exTileU1 := by
  refine ⟨rfl, by decide, ?_, by decide⟩
  simp +decide [findTile, findTileLoop, exSbUnsorted, exTileU1, exTileU2,
    exTileU3]


/-- Counterexample to claim C4 as stated: on a fatal error of a class other than
network or media (here `otherError`), the code's handler performs no action
and no state change, whereas the spec's classification transitions the
controller to `Failed`. -/
theorem onErrorHandler_other_fatal_no_failed :
    onErrorHandler true HlsErrorType.otherError = SessionAction.noAction ∧
    onSessionErrorSpec true HlsErrorType.otherError = SessionAction.enterFailed ∧
    SessionAction.noAction ≠ SessionAction.enterFailed := by
  decide

/-- Claim C4, amended.  Non-fatal errors cause no action; a fatal network error
reloads the source; a fatal media error calls media-error recovery; any other
fatal class causes no action at all (the code has no `Failed` phase, so in
particular no automatic retries are started for such errors); the handler
never changes component state. -/
theorem onErrorHandler_classification (fatal : Bool) (etype : HlsErrorType)
    (ui : UIState) :
    onErrorHandler false etype = SessionAction.noAction ∧
    onErrorHandler true HlsErrorType.networkError = SessionAction.startLoad ∧
    onErrorHandler true HlsErrorType.mediaError =
      SessionAction.recoverMediaError ∧
    (etype ≠ HlsErrorType.networkError → etype ≠ HlsErrorType.mediaError →
      onErrorHandler true etype = SessionAction.noAction) ∧
    onErrorHandlerState ui fatal etype = ui := by
  refine ⟨rfl, rfl, rfl, ?_, rfl⟩
  intro h1 h2
  simp [onErrorHandler, h1, h2]

/-- Witness for `onErrorHandler_classification` at the `otherError` class. -/
theorem onErrorHandler_classification_witness :
    (HlsErrorType.otherError ≠ HlsErrorType.networkError ∧
      HlsErrorType.otherError ≠ HlsErrorType.mediaError) ∧
    onErrorHandler true HlsErrorType.otherError = SessionAction.noAction := by
  refine ⟨⟨by decide, by decide⟩, ?_⟩
  exact (onErrorHandler_classification true HlsErrorType.otherError
    initialUIState).2.2.2.1 (by decide) (by decide)

/-- Claim C5.  When autoplay is requested, the `MANIFEST_PARSED` handler sets
`muted := true` on the media element (and mirrors it into component state)
before issuing `play()`, for every externally requested prior mute state; and
a rejected `play()` promise is swallowed: the handler's result does not depend
on whether the play attempt rejects. -/
theorem autoplay_forces_muted (ui : UIState) (v : VideoEl) (rej : Bool) :
    ((manifestParsedHandler true ui v rej).playAttempt.map VideoEl.muted =
      some true) ∧
    (manifestParsedHandler true ui v rej).video.muted = true ∧
    (manifestParsedHandler true ui v rej).ui.isMuted = true ∧
    (∀ autoplay, manifestParsedHandler autoplay ui v true =
      manifestParsedHandler autoplay ui v false) := by
  refine ⟨rfl, rfl, rfl, fun autoplay => ?_⟩
  cases autoplay <;> rfl

/-- Claim C6.  On the `ended` event with `loop = true` the handler resets
`currentTime` to 0 and issues `play()` inside the same handler, and the
subsequent `play` event leaves the player Playing at time 0; with
`loop = false` no play is issued and the player stays stopped
(`isPlaying = false`). -/
theorem loop_resumes_from_zero (ui : UIState) (v : VideoEl) :
    (endedHandler true ui v).2.1.currentTime = 0 ∧
    (endedHandler true ui v).2.2 = true ∧
    (playEventHandler (endedHandler true ui v).1).isPlaying = true ∧
    (endedHandler false ui v).2.2 = false ∧
    (endedHandler false ui v).1.isPlaying = false ∧
    (endedHandler false ui v).2.1 = v := by
  exact ⟨rfl, rfl, rfl, rfl, rfl, rfl⟩

/-- Claim C7.  Every seek operation clamps its target to `[0, duration]`: the
keyboard seeks compute `max(0, t - 10)` and `min(duration, t + 10)`, and the
track-click seek clamps the track fraction to `[0, 1]` before multiplying by
the duration; concretely, with duration 120 a backward seek whose raw target
is `-5` yields 0 and a forward seek whose raw target is 999 yields 120. -/
theorem seek_clamped (t d : ℚ) (ht0 : 0 ≤ t) (htd : t ≤ d) :
    (0 ≤ keySeekBack t ∧ keySeekBack t ≤ d) ∧
    (0 ≤ keySeekFwd t (some d) ∧ keySeekFwd t (some d) ≤ d) ∧
    (∀ clientX left width : ℚ,
      0 ≤ seekToTime clientX left width (some d) ∧
      seekToTime clientX left width (some d) ≤ d) ∧
    keySeekBack 5 = 0 ∧ keySeekFwd 989 (some 120) = 120 := by
  have hd0 : 0 ≤ d := le_trans ht0 htd
  refine ⟨⟨le_max_left 0 (t - 10), max_le hd0 (by linarith)⟩,
    ⟨le_min hd0 (by linarith), min_le_left d (t + 10)⟩, ?_, ?_, ?_⟩
  · intro clientX left width
    simp only [seekToTime, Option.getD_some]
    constructor
    · apply mul_nonneg (le_max_left 0 _) hd0
    · calc max 0 (min 1 ((clientX - left) / width)) * d
          ≤ 1 * d := by
            apply mul_le_mul_of_nonneg_right _ hd0
            apply max_le (by norm_num) (min_le_left 1 _)
        _ = d := one_mul d
  · show max 0 (5 - 10 : ℚ) = 0
    norm_num
  · show min ((120 : ℚ)) (989 + 10) = 120
    norm_num

/-- Witness for `seek_clamped` at `t = 5`, duration 120 (raw backward target
`5 - 10 = -5`). -/
theorem seek_clamped_witness :
    ((0 : ℚ) ≤ 5 ∧ (5 : ℚ) ≤ 120) ∧
    keySeekBack 5 = 0 ∧ keySeekFwd 989 (some 120) = 120 := by
  refine ⟨⟨by norm_num, by norm_num⟩, ?_, ?_⟩
  · exact (seek_clamped 5 120 (by norm_num) (by norm_num)).2.2.2.1
  · exact (seek_clamped 5 120 (by norm_num) (by norm_num)).2.2.2.2


theorem stepPreload_loaded (tiles : List StoryboardTile) (total : ℕ)
    (st : PreloadState) (ev : List Char × ImgEvent) :
    (stepPreload tiles total st ev).loaded = st.loaded + 1 := by
  rcases ev with ⟨u, e⟩
  cases e <;> rfl

theorem stepPreload_imageMap (tiles : List StoryboardTile) (total : ℕ)
    (st : PreloadState) (ev : List Char × ImgEvent) :
    (stepPreload tiles total st ev).imageMap =
      st.imageMap ++ loadedMap [ev] := by
  rcases ev with ⟨u, e⟩
  cases e <;> simp [stepPreload, loadedMap]

theorem stepPreload_published (tiles : List StoryboardTile) (total : ℕ)
    (st : PreloadState) (ev : List Char × ImgEvent) :
    (stepPreload tiles total st ev).published =
      if st.loaded + 1 = total then
        some { tiles := tiles, images := st.imageMap ++ loadedMap [ev] }
      else st.published := by
  rcases ev with ⟨u, e⟩
  cases e <;> simp [stepPreload, loadedMap]

theorem foldPreload_loaded (tiles : List StoryboardTile) (total : ℕ)
    (events : List (List Char × ImgEvent)) (st : PreloadState) :
    (events.foldl (stepPreload tiles total) st).loaded =
      st.loaded + events.length := by
  induction events generalizing st with
  | nil => simp
  | cons e rest ih =>
    rw [List.foldl_cons, ih, stepPreload_loaded]
    simp
    omega

theorem foldPreload_imageMap (tiles : List StoryboardTile) (total : ℕ)
    (events : List (List Char × ImgEvent)) (st : PreloadState) :
    (events.foldl (stepPreload tiles total) st).imageMap =
      st.imageMap ++ loadedMap events := by
  induction events generalizing st with
  | nil => simp [loadedMap]
  | cons e rest ih =>
    rw [List.foldl_cons, ih, stepPreload_imageMap]
    rcases e with ⟨u, ev⟩
    cases ev <;> simp [loadedMap, List.filterMap_cons]

theorem foldPreload_published_none (tiles : List StoryboardTile) (total : ℕ)
    (events : List (List Char × ImgEvent)) (st : PreloadState)
    (h : st.loaded + events.length < total) (hp : st.published = none) :
    (events.foldl (stepPreload tiles total) st).published = none := by
  induction events generalizing st with
  | nil => simpa using hp
  | cons e rest ih =>
    rw [List.foldl_cons]
    apply ih
    · rw [stepPreload_loaded]
      simp at h
      omega
    · rw [stepPreload_published, if_neg (by simp at h; omega), hp]

theorem foldPreload_published_eq (tiles : List StoryboardTile) (total : ℕ)
    (events : List (List Char × ImgEvent)) (st : PreloadState)
    (h : st.loaded + events.length = total) (hne : events ≠ []) :
    (events.foldl (stepPreload tiles total) st).published =
      some { tiles := tiles, images := st.imageMap ++ loadedMap events } := by
  induction events generalizing st with
  | nil => exact absurd rfl hne
  | cons e rest ih =>
    rw [List.foldl_cons]
    by_cases hrest : rest = []
    · subst hrest
      simp only [List.foldl_nil]
      rw [stepPreload_published, if_pos (by simpa using h)]
    · rw [ih (stepPreload tiles total st e)
        (by rw [stepPreload_loaded]; simp at h ⊢; omega) hrest]
      rw [stepPreload_imageMap]
      rcases e with ⟨u, ev⟩
      cases ev <;> simp [loadedMap, List.filterMap_cons]

theorem lookupImage_loadedMap_none (events : List (List Char × ImgEvent))
    (u : List Char) (h : ∀ d, (u, ImgEvent.onload d) ∉ events) :
    lookupImage (loadedMap events) u = none := by
  induction events with
  | nil => rfl
  | cons e rest ih =>
    have hrest : ∀ d, (u, ImgEvent.onload d) ∉ rest := by
      intro d hd
      exact h d (List.mem_cons_of_mem e hd)
    rcases e with ⟨u2, ev⟩
    cases ev with
    | onload d =>
      have hne : u2 ≠ u := by
        intro heq
        subst heq
        exact h d (List.mem_cons_self _ _)
      simp only [loadedMap, List.filterMap_cons] at ih ⊢
      simp only [lookupImage, List.find?] at ih ⊢
      have : ((u2, d).1 == u) = false := by
        simp [hne]
      rw [this]
      exact ih hrest
    | onerror =>
      simp only [loadedMap, List.filterMap_cons] at ih ⊢
      exact ih hrest

theorem thumbStyle_none_of_no_image (sb : StoryboardMeta)
    (tile : StoryboardTile) (h : lookupImage sb.images tile.url = none) :
    thumbStyle (some sb) (some tile) = none := by
  simp [thumbStyle, h]

theorem uniqueUrls_ne_nil (tiles : List StoryboardTile) (h : tiles ≠ []) :
    uniqueUrls tiles ≠ [] := by
  cases tiles with
  | nil => exact absurd rfl h
  | cons t ts =>
    rw [uniqueUrls]
    simp


/-- Claim C8.  The storyboard publishes only once every distinct sprite URL has
settled: after every strict prefix of the settlement events nothing is
published, and after the last event the index is published with exactly the
successfully loaded sheets in `spriteDimensions`; a failed sheet is absent
from the map; lookups on the published index still return a tile; and the
preview mapper returns `none` (no rect, no crash) for a tile whose sheet is
absent. -/
theorem preload_completion_barrier (tiles : List StoryboardTile)
    (events : List (List Char × ImgEvent)) (time : ℚ)
    (hne : tiles ≠ [])
    (hlen : events.length = (uniqueUrls tiles).length) :
    (∀ k, k < events.length →
      (runPreload tiles (events.take k)).published = none) ∧
    (runPreload tiles events).published =
      some { tiles := tiles, images := loadedMap events } ∧
    (∀ u, (∀ d, (u, ImgEvent.onload d) ∉ events) →
      lookupImage (loadedMap events) u = none) ∧
    (∀ meta, (runPreload tiles events).published = some meta →
      ∃ tile, findTile (some meta) time = some tile ∧ tile ∈ meta.tiles) ∧
    (∀ sb tile, lookupImage sb.images tile.url = none →
      thumbStyle (some sb) (some tile) = none) := by
  have htot : uniqueUrls tiles ≠ [] := uniqueUrls_ne_nil tiles hne
  have htot2 : 0 < (uniqueUrls tiles).length := List.length_pos.mpr htot
  have hpub : (runPreload tiles events).published =
      some { tiles := tiles, images := loadedMap events } := by
    have := foldPreload_published_eq tiles (uniqueUrls tiles).length events
      { imageMap := [], loaded := 0, published := none }
      (by simpa using hlen)
      (by intro h0; rw [h0] at hlen; simp at hlen; omega)
    simpa [runPreload] using this
  refine ⟨?_, hpub, ?_, ?_, ?_⟩
  · intro k hk
    apply foldPreload_published_none
    · simp only [List.length_take]
      omega
    · rfl
  · intro u hu
    exact lookupImage_loadedMap_none events u hu
  · intro meta hmeta
    rw [hpub] at hmeta
    have hmeta2 : meta =
        { tiles := tiles, images := loadedMap events } := by
      exact (Option.some_injective _ hmeta).symm
    subst hmeta2
    have hlenp : 0 < tiles.length := List.length_pos.mpr hne
    show ∃ tile, findTile
      (some { tiles := tiles, images := loadedMap events }) time = some tile ∧
      tile ∈ tiles
    rw [findTile]
    simp only [Nat.pos_iff_ne_zero.mp hlenp, if_false]
    exact findTileLoop_mem tiles time 0 ((tiles.length : ℤ) - 1)
      (by omega) (by omega) hne
  · intro sb tile h
    exact thumbStyle_none_of_no_image sb tile h

/-- Witness for `preload_completion_barrier`: a one-tile storyboard whose only
sheet fails to load — the index still publishes, with an empty dimensions map,
and the mapper produces no rect for its tile. -/
theorem preload_completion_barrier_witness :
    (([exTileWide] : List StoryboardTile) ≠ [] ∧
      [("u".data, ImgEvent.onerror)].length =
        (uniqueUrls [exTileWide]).length) ∧
    (runPreload [exTileWide] [("u".data, ImgEvent.onerror)]).published =
      some { tiles := [exTileWide], images := [] } ∧
    thumbStyle (some { tiles := [exTileWide], images := ([] : List (List Char × SpriteDim)) })
      (some exTileWide) = none := by
  have h1 : ([exTileWide] : List StoryboardTile) ≠ [] := by simp
  have h2 : [("u".data, ImgEvent.onerror)].length =
      (uniqueUrls [exTileWide]).length := by
    simp [uniqueUrls]
  have H := preload_completion_barrier [exTileWide]
    [("u".data, ImgEvent.onerror)] 0 h1 h2
  refine ⟨⟨h1, h2⟩, ?_, ?_⟩
  · have h3 := H.2.1
    simpa [loadedMap] using h3
  · exact H.2.2.2.2 _ exTileWide rfl


/-- Counterexample to claim C2 as stated: a two-cue manifest with the cues in
descending time order parses to a tile list whose start times are `[5, 0]` —
not sorted ascending.  The parser keeps manifest order and never sorts. -/
theorem parse_not_sorted_counterexample :
    (parseStoryboardVTT revManifest "b/").map StoryboardTile.startTime =
      [5, 0] ∧
    ¬ (parseStoryboardVTT revManifest "b/").Pairwise
        (fun a b => a.startTime ≤ b.startTime) := by
  constructor
  · decide
  · decide

/-- Claim C2, amended.  The tile list equals `filterMap` of the per-block parse
over the manifest's cue blocks in manifest order (no sorting); consequently it
is sorted ascending by `startTime` exactly when the manifest's well-formed
cues already appear in ascending order. -/
theorem parse_preserves_block_order (text baseUrl : String) :
    parseStoryboardVTT text baseUrl =
      (vttBlocks text.data).filterMap (parseCueBlock baseUrl.data) ∧
    (((vttBlocks text.data).filterMap (parseCueBlock baseUrl.data)).Pairwise
        (fun a b => a.startTime ≤ b.startTime) →
      (parseStoryboardVTT text baseUrl).Pairwise
        (fun a b => a.startTime ≤ b.startTime)) := by
  refine ⟨parseStoryboardVTT_eq text baseUrl, ?_⟩
  intro h
  rw [parseStoryboardVTT_eq]
  exact h

/-- Witness for `parse_preserves_block_order`: the ascending two-cue manifest
parses to a sorted tile list. -/
theorem parse_preserves_block_order_witness :
    ((vttBlocks exManifest.data).filterMap (parseCueBlock "b/".data)).Pairwise
      (fun a b => a.startTime ≤ b.startTime) ∧
    (parseStoryboardVTT exManifest "b/").Pairwise
      (fun a b => a.startTime ≤ b.startTime) := by
  have h : ((vttBlocks exManifest.data).filterMap
      (parseCueBlock "b/".data)).Pairwise
      (fun a b => a.startTime ≤ b.startTime) := by decide
  exact ⟨h, (parse_preserves_block_order exManifest "b/").2 h⟩

theorem cueFold_fst_nil (lines : List (List Char)) (p : List Char × List Char)
    (hp : p.1 = []) (h : ∀ l ∈ lines, containsSub l "-->".data = false) :
    (lines.foldl (fun (p : List Char × List Char) line =>
      if containsSub line "-->".data then (trimChars line, p.2)
      else if containsSub line "#xywh=".data then (p.1, trimChars line)
      else p) p).1 = [] := by
  induction lines generalizing p with
  | nil => simpa using hp
  | cons l ls ih =>
    rw [List.foldl_cons]
    apply ih
    · have hl := h l (List.mem_cons_self l ls)
      by_cases h2 : containsSub l "#xywh=".data <;> simp [hl, h2, hp]
    · intro x hx
      exact h x (List.mem_cons_of_mem l hx)

/-- A block with no `-->` line is skipped (`continue` at src line 59). -/
theorem parseCueBlock_no_arrow (baseUrl : List Char)
    (block : List (List Char))
    (h : ∀ l ∈ block, containsSub l "-->".data = false) :
    parseCueBlock baseUrl block = none := by
  have hfst := cueFold_fst_nil block ([], []) rfl h
  simp only [parseCueBlock]
  rw [hfst]
  simp


theorem joinBlocks_ne_nil (blocks : List (List (List Char)))
    (hbs : blocks ≠ []) (hne : ∀ b ∈ blocks, b ≠ []) :
    joinBlocks blocks ≠ [] := by
  cases blocks with
  | nil => exact absurd rfl hbs
  | cons b bs =>
    cases bs with
    | nil =>
      show b ≠ []
      exact hne b (List.mem_cons_self b [])
    | cons b2 rest =>
      show b ++ [] :: joinBlocks (b2 :: rest) ≠ []
      simp


theorem mem_joinBlocks (blocks : List (List (List Char))) (l : List Char)
    (hl : l ∈ joinBlocks blocks) : l = [] ∨ ∃ b ∈ blocks, l ∈ b := by
  induction blocks with
  | nil => cases hl
  | cons b bs ih =>
    cases bs with
    | nil =>
      right
      exact ⟨b, List.mem_cons_self b [], hl⟩
    | cons b2 rest =>
      have hl2 : l ∈ b ++ [] :: joinBlocks (b2 :: rest) := hl
      rcases List.mem_append.mp hl2 with h | h
      · right
        exact ⟨b, List.mem_cons_self b _, h⟩
      · rcases List.mem_cons.mp h with h | h
        · exact Or.inl h
        · rcases ih h with h | ⟨b3, hb3, hlb3⟩
          · exact Or.inl h
          · exact Or.inr ⟨b3, List.mem_cons_of_mem b hb3, hlb3⟩


/-- Inversion: `splitBlanks` recovers the block list from its blank-separated
join when no block contains a whitespace-only line. -/
theorem splitBlanks_joinBlocks (blocks : List (List (List Char)))
    (hnb : ∀ b ∈ blocks, ∀ l ∈ b, isBlankLine l = false) (hbs : blocks ≠ []) :
    splitBlanks (joinBlocks blocks) = blocks := by
  induction blocks with
  | nil => exact absurd rfl hbs
  | cons b bs ih =>
    cases bs with
    | nil =>
      show splitBlanks b = [b]
      exact splitBlanks_nonblank b (hnb b (List.mem_cons_self b []))
    | cons b2 rest =>
      show splitBlanks (b ++ [] :: joinBlocks (b2 :: rest)) = b :: b2 :: rest
      rw [splitBlanks_append b [] _ (hnb b (List.mem_cons_self b _)) rfl]
      rw [ih (fun x hx => hnb x (List.mem_cons_of_mem b hx)) (by simp)]


theorem cueFold_snd_nil (lines : List (List Char)) (p : List Char × List Char)
    (hp : p.2 = []) (h : ∀ l ∈ lines, containsSub l "#xywh=".data = false) :
    (lines.foldl (fun (p : List Char × List Char) line =>
      if containsSub line "-->".data then (trimChars line, p.2)
      else if containsSub line "#xywh=".data then (p.1, trimChars line)
      else p) p).2 = [] := by
  induction lines generalizing p with
  | nil => simpa using hp
  | cons l ls ih =>
    rw [List.foldl_cons]
    apply ih
    · have hl := h l (List.mem_cons_self l ls)
      by_cases h2 : containsSub l "-->".data <;> simp [hl, h2, hp]
    · intro x hx
      exact h x (List.mem_cons_of_mem l hx)


/-- A block with no `#xywh=` line is skipped (`continue` at src line 59). -/
theorem parseCueBlock_no_xywh (baseUrl : List Char)
    (block : List (List Char))
    (h : ∀ l ∈ block, containsSub l "#xywh=".data = false) :
    parseCueBlock baseUrl block = none := by
  have hsnd := cueFold_snd_nil block ([], []) rfl h
  simp only [parseCueBlock]
  rw [hsnd]
  simp


theorem length_filterMap_isSome {α β : Type} (f : α → Option β) (l : List α) :
    (l.filterMap f).length = (l.filter (fun a => (f a).isSome)).length := by
  induction l with
  | nil => rfl
  | cons a t ih =>
    cases h : f a <;>
      simp [List.filterMap_cons, List.filter_cons, h, ih]


theorem length_filter_isSome_add_isNone {α β : Type} (f : α → Option β)
    (l : List α) :
    (l.filter (fun a => (f a).isSome)).length +
      (l.filter (fun a => (f a).isNone)).length = l.length := by
  induction l with
  | nil => rfl
  | cons a t ih =>
    cases h : f a <;>
      simp [List.filter_cons, h, ih] <;> omega


/-- Claim C3.  The parser `parseStoryboardVTT` silently skips every malformed
cue block and keeps every well-formed one (it is a total function — parsing
never throws): over any blank-separated manifest, the result is exactly the
`filterMap` of the per-block parse in manifest order; a block with no `-->`
line, or with no `#xywh=` line, yields no tile (as does any block whose time
range or fragment regex fails, by definition of `parseCueBlock`); and every
3-cue manifest of which exactly one cue — in any position — is malformed
yields exactly 2 tiles. -/
theorem malformed_blocks_skipped (baseUrl : String)
    (blocks : List (List (List Char))) (text : String)
    (htext : text.data = joinLines (joinBlocks blocks))
    (hnl : ∀ b ∈ blocks, ∀ l ∈ b, '\n' ∉ l)
    (hnb : ∀ b ∈ blocks, ∀ l ∈ b, isBlankLine l = false)
    (hne : ∀ b ∈ blocks, b ≠ []) (hbs : blocks ≠ []) :
    parseStoryboardVTT text baseUrl =
      blocks.filterMap (parseCueBlock baseUrl.data) ∧
    (∀ block : List (List Char),
      (∀ l ∈ block, containsSub l "-->".data = false) →
      parseCueBlock baseUrl.data block = none) ∧
    (∀ block : List (List Char),
      (∀ l ∈ block, containsSub l "#xywh=".data = false) →
      parseCueBlock baseUrl.data block = none) ∧
    (blocks.length = 3 →
      (blocks.filter
        (fun b => (parseCueBlock baseUrl.data b).isNone)).length = 1 →
      (parseStoryboardVTT text baseUrl).length = 2) := by
  have hL : splitLines text.data = joinBlocks blocks := by
    rw [htext]
    apply splitLines_joinLines _ (joinBlocks_ne_nil blocks hbs hne)
    intro l hl
    rcases mem_joinBlocks blocks l hl with h | ⟨b, hb, hlb⟩
    · subst h; simp
    · exact hnl b hb l hlb
  have hfil : blocks.filter (fun b => !b.isEmpty) = blocks := by
    apply List.filter_eq_self.mpr
    intro b hb
    have hbne := hne b hb
    cases b with
    | nil => exact absurd rfl hbne
    | cons x xs => rfl
  have hmain : parseStoryboardVTT text baseUrl =
      blocks.filterMap (parseCueBlock baseUrl.data) := by
    show parseVTTLines baseUrl.data (splitLines text.data) = _
    rw [parseVTTLines, hL, splitBlanks_joinBlocks blocks hnb hbs, hfil,
      parseVTTLoop_eq]
    simp
  refine ⟨hmain, fun block hb => parseCueBlock_no_arrow baseUrl.data block hb,
    fun block hb => parseCueBlock_no_xywh baseUrl.data block hb, ?_⟩
  intro h3 hone
  rw [hmain, length_filterMap_isSome]
  have hsum :=
    length_filter_isSome_add_isNone (parseCueBlock baseUrl.data) blocks
  omega


/-- Witness for `malformed_blocks_skipped`: concrete three-cue manifests with
the malformed block in FIRST position and in MIDDLE position each yield
exactly the two well-formed tiles. -/
theorem malformed_blocks_skipped_witness :
    parseCueBlock "b/".data ["badcue".data] = none ∧
    parseStoryboardVTT malManifestFirst "b/" = [exTileA, exTileB] ∧
    (parseStoryboardVTT malManifestFirst "b/").length = 2 ∧
    parseStoryboardVTT malManifest "b/" = [exTileA, exTileB] := by
  have H1 := malformed_blocks_skipped "b/"
    [["badcue".data],
     ["00:00:00.000 --> 00:00:05.000".data, "sheet.jpg#xywh=0,0,100,60".data],
     ["00:00:05.000 --> 00:00:10.000".data,
      "sheet.jpg#xywh=100,0,100,60".data]]
    malManifestFirst (by decide) (by decide) (by decide) (by decide)
    (by decide)
  have H2 := malformed_blocks_skipped "b/"
    [["00:00:00.000 --> 00:00:05.000".data, "sheet.jpg#xywh=0,0,100,60".data],
     ["badcue".data],
     ["00:00:05.000 --> 00:00:10.000".data,
      "sheet.jpg#xywh=100,0,100,60".data]]
    malManifest (by decide) (by decide) (by decide) (by decide) (by decide)
  refine ⟨by decide, ?_, ?_, ?_⟩
  · rw [H1.1]
    decide
  · exact H1.2.2.2 (by decide) (by decide)
  · rw [H2.1]
    decide


/-- Counterexample to claim C9 as stated: for the 100×60 tile the preview is
192×115 (the scaled axis is rounded to an integer), so
`displayWidth / displayHeight ≠ tile.w / tile.h` and the two per-axis scale
factors differ — there is no single uniform scale factor. -/
theorem preview_aspect_counterexample :
    thumbStyle (some exSbWide) (some exTileWide) =
      some { width := 192, height := 115, offsetX := 0, offsetY := 0,
             bgWidth := 960, bgHeight := 115 } ∧
    (192 : ℚ) / 115 ≠ (exTileWide.w : ℚ) / (exTileWide.h : ℚ) ∧
    (192 : ℚ) / (exTileWide.w : ℚ) ≠ (115 : ℚ) / (exTileWide.h : ℚ) := by
  refine ⟨?_, ?_, ?_⟩
  · simp [thumbStyle, lookupImage, exSbWide, exTileWide, jsRound]
    norm_num
  · show (192 : ℚ) / 115 ≠ ((100 : ℕ) : ℚ) / ((60 : ℕ) : ℚ)
    norm_num
  · show (192 : ℚ) / ((100 : ℕ) : ℚ) ≠ (115 : ℚ) / ((60 : ℕ) : ℚ)
    norm_num

/-- Claim C9, amended.  For a tile with positive dimensions and known sheet
dimensions the mapper produces a rect whose origin offsets and sheet
dimensions are scaled by the per-axis factors `width / tile.w` and
`height / tile.h`; the tile's aspect ratio is preserved exactly — and the two
factors coincide — whenever the proportionally scaled axis needs no rounding
(for a landscape tile: when `tile.w` divides `192 * tile.h`).  The mapper is a
pure function of its inputs. -/
theorem preview_rect_scaling (tile : StoryboardTile) (sb : StoryboardMeta)
    (meta : SpriteDim) (hw : 0 < tile.w) (hh : 0 < tile.h)
    (hmeta : lookupImage sb.images tile.url = some meta) :
    ∃ r, thumbStyle (some sb) (some tile) = some r ∧
      r.offsetX = (tile.x : ℚ) * (r.width / (tile.w : ℚ)) ∧
      r.offsetY = (tile.y : ℚ) * (r.height / (tile.h : ℚ)) ∧
      r.bgWidth = (meta.nw : ℚ) * (r.width / (tile.w : ℚ)) ∧
      r.bgHeight = (meta.nh : ℚ) * (r.height / (tile.h : ℚ)) ∧
      (tile.h ≤ tile.w → (tile.w : ℤ) ∣ (192 * tile.h : ℤ) →
        r.width / r.height = (tile.w : ℚ) / (tile.h : ℚ) ∧
        r.width / (tile.w : ℚ) = r.height / (tile.h : ℚ)) := by
  have hw0 : ((tile.w : ℚ)) ≠ 0 := by positivity
  have hh0 : ((tile.h : ℚ)) ≠ 0 := by positivity
  simp only [thumbStyle, hmeta]
  refine ⟨_, rfl, rfl, rfl, rfl, rfl, ?_⟩
  intro hhw hdvd
  have haspect : (1 : ℚ) ≤ (tile.w : ℚ) / (tile.h : ℚ) := by
    rw [le_div_iff₀ (by positivity)]
    simpa using (Nat.cast_le.mpr hhw : ((tile.h : ℚ)) ≤ (tile.w : ℚ))
  obtain ⟨c, hc⟩ := hdvd
  have hcpos : 0 < c := by
    by_contra hcn
    push_neg at hcn
    have h1 : (0 : ℤ) < 192 * tile.h := by positivity
    have h2 : (tile.w : ℤ) * c ≤ 0 :=
      mul_nonpos_of_nonneg_of_nonpos (by positivity) hcn
    omega
  have hcq : ((192 * tile.h : ℤ) : ℚ) = (tile.w : ℚ) * (c : ℚ) := by
    exact_mod_cast congrArg (fun z : ℤ => (z : ℚ)) hc
  push_cast at hcq
  have harg : (192 : ℚ) / ((tile.w : ℚ) / (tile.h : ℚ)) = (c : ℚ) := by
    rw [div_div_eq_mul_div]
    rw [div_eq_iff hw0]
    linarith [hcq]
  have hround : jsRound ((c : ℚ)) = c := by
    unfold jsRound
    rw [Int.floor_eq_iff]
    constructor
    · linarith
    · linarith
  simp only [if_pos haspect, harg, hround]
  have hc0 : ((c : ℚ)) ≠ 0 := by
    exact_mod_cast hcpos.ne.symm
  constructor
  · rw [div_eq_div_iff hc0 hh0]
    linarith [hcq]
  · rw [div_eq_div_iff hw0 hh0]
    linarith [hcq]


/-- Witness for `preview_rect_scaling`: the 160×90 tile, whose scaled axis
192 / (160/90) = 108 needs no rounding, keeps its aspect ratio exactly. -/
theorem preview_rect_scaling_witness :
    (0 < exTileExact.w ∧ 0 < exTileExact.h ∧
      lookupImage exSbExact.images exTileExact.url =
        some { nw := 800, nh := 90 } ∧
      exTileExact.h ≤ exTileExact.w ∧
      (exTileExact.w : ℤ) ∣ (192 * exTileExact.h : ℤ)) ∧
    (∃ r, thumbStyle (some exSbExact) (some exTileExact) = some r ∧
      r.width / r.height = (exTileExact.w : ℚ) / (exTileExact.h : ℚ) ∧
      r.width / (exTileExact.w : ℚ) = r.height / (exTileExact.h : ℚ)) := by
  have h1 : 0 < exTileExact.w := by decide
  have h2 : 0 < exTileExact.h := by decide
  have h3 : lookupImage exSbExact.images exTileExact.url =
      some { nw := 800, nh := 90 } := by decide
  have h4 : exTileExact.h ≤ exTileExact.w := by decide
  have h5 : (exTileExact.w : ℤ) ∣ (192 * exTileExact.h : ℤ) := by
    refine ⟨108, ?_⟩
    norm_num [exTileExact]
  refine ⟨⟨h1, h2, h3, h4, h5⟩, ?_⟩
  obtain ⟨r, hr, h6, h7, h8, h9, hex⟩ :=
    preview_rect_scaling exTileExact exSbExact _ h1 h2 h3
  exact ⟨r, hr, (hex h4 h5).1, (hex h4 h5).2⟩

end Vid
